import Mathlib

/-!
Verification of the shape-broadcasting specification of pystatsml's
`tools_numpy.py`.  The source file states the NumPy broadcasting rules as
documentation (trailing-axis alignment, extent-1 stretching, virtual padding
with 1) together with worked examples; the broadcaster itself is not
executable code in the repository, so it is modelled here from the spec's
algorithm in section 4.1 and settled against the claims.

A shape is a list of natural numbers, outermost axis first.
-/

set_option autoImplicit false

namespace PyStatsML

/-- Modelled from the spec: the single error kind `IncompatibleShapesError`,
carrying both full input shapes and the offending axis index (an index into
the virtually padded, length-`n` shape, axis 0 outermost). -/
structure IncompatibleShapesError where
  shapeA : List Nat
  shapeB : List Nat
  axis : Nat
  deriving DecidableEq, Repr

/-- Modelled from the spec: the per-axis comparison of step 3 of the
algorithm.  If `da == db` the result extent is `da`; else if `da == 1` it is
`db`; else if `db == 1` it is `da`; otherwise the axes are incompatible
(`none`). -/
def bdim (da db : Nat) : Option Nat :=
  if da = db then some da
  else if da = 1 then some db
  else if db = 1 then some da
  else none

/-- Modelled from the spec: the right-to-left scan of step 3, phrased on
reversed shapes (head = trailing axis).  When one list runs out the other is
compared against virtual extent 1, which always succeeds and yields the
remaining extents unchanged.  An error value is the trailing-aligned position
(0 = trailing axis) of the first offending axis met by the scan. -/
def bcastRev : List Nat → List Nat → Except Nat (List Nat)
  | [], tb => .ok tb
  | ta, [] => .ok ta
  | da :: ta, db :: tb =>
    match bdim da db with
    | none => .error 0
    | some d =>
      match bcastRev ta tb with
      | .ok r => .ok (d :: r)
      | .error j => .error (j + 1)

/-- Modelled from the spec: `broadcast(shapeA, shapeB) ->
Result<Shape, IncompatibleShapesError>`.  Aligns trailing axes, compares
right to left, and on failure reports both input shapes and the offending
axis index in the padded length-`n` shape (axis 0 outermost, so trailing
position `j` is axis `n - 1 - j`). -/
def broadcast (A B : List Nat) : Except IncompatibleShapesError (List Nat) :=
  match bcastRev A.reverse B.reverse with
  | .ok r => .ok r.reverse
  | .error j => .error ⟨A, B, max A.length B.length - 1 - j⟩

/-- The (virtually padded) extent of shape `s` at trailing-aligned position
`i` (`i = 0` is the trailing axis); a missing axis is treated as extent 1. -/
def extT (s : List Nat) (i : Nat) : Nat := s.reverse.getD i 1

/-- Two extents are incompatible when they differ and neither equals 1. -/
def bad (da db : Nat) : Prop := da ≠ db ∧ da ≠ 1 ∧ db ≠ 1

instance (da db : Nat) : Decidable (bad da db) := by
  unfold bad; infer_instance

/-- The value `bdim` returns on success, as a total function. -/
def cv (da db : Nat) : Nat := if da = 1 then db else da

theorem cv_one_left (b : Nat) : cv 1 b = b := by simp [cv]

theorem cv_one_right (a : Nat) : cv a 1 = a := by
  unfold cv; split <;> simp_all

theorem cv_self (a : Nat) : cv a a = a := by
  unfold cv; split <;> simp_all

theorem cv_assoc (a b c : Nat) : cv (cv a b) c = cv a (cv b c) := by
  by_cases h : a = 1 <;> simp [cv, h]

theorem bdim_some_eq {da db d : Nat} (h : bdim da db = some d) : d = cv da db := by
  unfold bdim at h
  unfold cv
  split_ifs at h ⊢ <;> simp_all

theorem bdim_none_iff (da db : Nat) : bdim da db = none ↔ bad da db := by
  unfold bdim bad
  split_ifs <;> simp_all

theorem bdim_comm (da db : Nat) : bdim da db = bdim db da := by
  unfold bdim
  split_ifs <;> simp_all

theorem bad_comm (da db : Nat) : bad da db ↔ bad db da := by
  unfold bad
  exact ⟨fun ⟨h1, h2, h3⟩ => ⟨h1.symm, h3, h2⟩, fun ⟨h1, h2, h3⟩ => ⟨h1.symm, h3, h2⟩⟩

theorem cv_lower_bound {a b : Nat} (hg : ¬ bad a b) :
    max a b ≤ cv a b ∨ (cv a b = 0 ∧ (a = 0 ∨ b = 0)) := by
  have hg' : a = b ∨ a = 1 ∨ b = 1 := by
    by_contra hc
    push_neg at hc
    exact hg ⟨hc.1, hc.2.1, hc.2.2⟩
  unfold cv
  split_ifs with h1 <;> omega

theorem bcastRev_nil_left (tb : List Nat) : bcastRev [] tb = .ok tb := by
  cases tb <;> rfl

theorem bcastRev_nil_right (ta : List Nat) : bcastRev ta [] = .ok ta := by
  cases ta <;> rfl

theorem bcastRev_cons_cons (da db : Nat) (ta tb : List Nat) :
    bcastRev (da :: ta) (db :: tb) =
      match bdim da db with
      | none => .error 0
      | some d =>
        match bcastRev ta tb with
        | .ok r => .ok (d :: r)
        | .error j => .error (j + 1) := rfl

theorem bcastRev_ok_getD (ta : List Nat) : ∀ (tb r : List Nat),
    bcastRev ta tb = .ok r → ∀ j, r.getD j 1 = cv (ta.getD j 1) (tb.getD j 1) := by
  induction ta with
  | nil =>
    intro tb r h j
    rw [bcastRev_nil_left] at h
    cases h
    simp [List.getD_nil, cv_one_left]
  | cons da ta ih =>
    intro tb r h j
    cases tb with
    | nil =>
      rw [bcastRev_nil_right] at h
      cases h
      simp [List.getD_nil, cv_one_right]
    | cons db tb =>
      rw [bcastRev_cons_cons] at h
      cases hbd : bdim da db with
      | none => rw [hbd] at h; cases h
      | some d =>
        rw [hbd] at h
        cases hrec : bcastRev ta tb with
        | error j' => rw [hrec] at h; cases h
        | ok r' =>
          rw [hrec] at h
          cases h
          cases j with
          | zero => simpa using bdim_some_eq hbd
          | succ j => simpa using ih tb r' hrec j

theorem bcastRev_ok_length (ta : List Nat) : ∀ (tb r : List Nat),
    bcastRev ta tb = .ok r → r.length = max ta.length tb.length := by
  induction ta with
  | nil =>
    intro tb r h
    rw [bcastRev_nil_left] at h
    cases h
    simp
  | cons da ta ih =>
    intro tb r h
    cases tb with
    | nil =>
      rw [bcastRev_nil_right] at h
      cases h
      simp
    | cons db tb =>
      rw [bcastRev_cons_cons] at h
      cases hbd : bdim da db with
      | none => rw [hbd] at h; cases h
      | some d =>
        rw [hbd] at h
        cases hrec : bcastRev ta tb with
        | error j' => rw [hrec] at h; cases h
        | ok r' =>
          rw [hrec] at h
          cases h
          have := ih tb r' hrec
          simp only [List.length_cons, this]
          omega

theorem bcastRev_ok_not_bad (ta : List Nat) : ∀ (tb r : List Nat),
    bcastRev ta tb = .ok r → ∀ j, ¬ bad (ta.getD j 1) (tb.getD j 1) := by
  induction ta with
  | nil =>
    intro tb r _ j
    rintro ⟨-, h1, -⟩
    exact h1 (by simp [List.getD_nil])
  | cons da ta ih =>
    intro tb r h j
    cases tb with
    | nil =>
      rintro ⟨-, -, h1⟩
      exact h1 (by simp [List.getD_nil])
    | cons db tb =>
      rw [bcastRev_cons_cons] at h
      cases hbd : bdim da db with
      | none => rw [hbd] at h; cases h
      | some d =>
        rw [hbd] at h
        cases hrec : bcastRev ta tb with
        | error j' => rw [hrec] at h; cases h
        | ok r' =>
          cases j with
          | zero =>
            intro hb
            rw [(bdim_none_iff da db).mpr (by simpa using hb)] at hbd
            cases hbd
          | succ j => simpa using ih tb r' hrec j

theorem bcastRev_error_spec (ta : List Nat) : ∀ (tb : List Nat) (j : Nat),
    bcastRev ta tb = .error j →
      bad (ta.getD j 1) (tb.getD j 1) ∧
      (∀ k, k < j → ¬ bad (ta.getD k 1) (tb.getD k 1)) ∧
      j < min ta.length tb.length := by
  induction ta with
  | nil =>
    intro tb j h
    rw [bcastRev_nil_left] at h
    cases h
  | cons da ta ih =>
    intro tb j h
    cases tb with
    | nil =>
      rw [bcastRev_nil_right] at h
      cases h
    | cons db tb =>
      rw [bcastRev_cons_cons] at h
      cases hbd : bdim da db with
      | none =>
        rw [hbd] at h
        cases h
        refine ⟨by simpa using (bdim_none_iff da db).mp hbd, ?_, by simp⟩
        intro k hk
        omega
      | some d =>
        rw [hbd] at h
        cases hrec : bcastRev ta tb with
        | ok r' => rw [hrec] at h; cases h
        | error j' =>
          rw [hrec] at h
          cases h
          obtain ⟨h1, h2, h3⟩ := ih tb j' hrec
          refine ⟨by simpa using h1, ?_, by simp; omega⟩
          intro k hk
          cases k with
          | zero =>
            intro hb
            rw [(bdim_none_iff da db).mpr (by simpa using hb)] at hbd
            cases hbd
          | succ k =>
            have := h2 k (by omega)
            simpa using this

theorem bcastRev_comm (ta : List Nat) : ∀ tb : List Nat,
    bcastRev ta tb = bcastRev tb ta := by
  induction ta with
  | nil => intro tb; rw [bcastRev_nil_left, bcastRev_nil_right]
  | cons da ta ih =>
    intro tb
    cases tb with
    | nil => rw [bcastRev_nil_left, bcastRev_nil_right]
    | cons db tb =>
      rw [bcastRev_cons_cons, bcastRev_cons_cons, bdim_comm, ih tb]

theorem bcastRev_self (ta : List Nat) : bcastRev ta ta = .ok ta := by
  induction ta with
  | nil => rfl
  | cons da ta ih =>
    rw [bcastRev_cons_cons]
    have : bdim da da = some da := by simp [bdim]
    rw [this, ih]

theorem eq_of_getD : ∀ (r s : List Nat), r.length = s.length →
    (∀ j, r.getD j 1 = s.getD j 1) → r = s
  | [], [], _, _ => rfl
  | [], _ :: _, h, _ => by simp at h
  | _ :: _, [], h, _ => by simp at h
  | a :: r, b :: s, h, hg => by
    have h0 : a = b := by simpa using hg 0
    have ht : r = s :=
      eq_of_getD r s (by simpa using h) (fun j => by simpa using hg (j + 1))
    rw [h0, ht]

theorem broadcast_ok_iff (A B C : List Nat) :
    broadcast A B = .ok C ↔ bcastRev A.reverse B.reverse = .ok C.reverse := by
  unfold broadcast
  cases hb : bcastRev A.reverse B.reverse with
  | ok r =>
    simp only [Except.ok.injEq]
    constructor
    · rintro rfl; simp
    · rintro rfl; simp
  | error j => simp

theorem broadcast_error_eq_iff (A B : List Nat) (e : IncompatibleShapesError) :
    broadcast A B = .error e ↔
      ∃ j, bcastRev A.reverse B.reverse = .error j ∧
        e = ⟨A, B, max A.length B.length - 1 - j⟩ := by
  unfold broadcast
  cases hb : bcastRev A.reverse B.reverse with
  | ok r => simp
  | error j =>
    simp only [Except.error.injEq]
    constructor
    · rintro rfl
      exact ⟨j, rfl, rfl⟩
    · rintro ⟨j', hj', rfl⟩
      cases hj'
      rfl

theorem broadcast_ok_extT {A B C : List Nat} (h : broadcast A B = .ok C) :
    C.length = max A.length B.length ∧ ∀ i, extT C i = cv (extT A i) (extT B i) := by
  rw [broadcast_ok_iff] at h
  refine ⟨?_, fun i => bcastRev_ok_getD _ _ _ h i⟩
  have := bcastRev_ok_length _ _ _ h
  simpa using this

theorem broadcast_error_exists_iff (A B : List Nat) :
    (∃ e, broadcast A B = .error e) ↔ ∃ j, bad (extT A j) (extT B j) := by
  constructor
  · rintro ⟨e, he⟩
    rw [broadcast_error_eq_iff] at he
    obtain ⟨j, hj, -⟩ := he
    exact ⟨j, (bcastRev_error_spec _ _ _ hj).1⟩
  · rintro ⟨j, hj⟩
    cases hb : bcastRev A.reverse B.reverse with
    | ok r => exact absurd hj (bcastRev_ok_not_bad _ _ _ hb j)
    | error j' =>
      refine ⟨⟨A, B, max A.length B.length - 1 - j'⟩, ?_⟩
      rw [broadcast_error_eq_iff]
      exact ⟨j', hb, rfl⟩

/-- C1: for every pair of shapes on which `broadcast` succeeds, the result has
length `max lenA lenB`, and at each trailing-aligned position `i` (missing
axes treated as extent 1) the result extent is `da` when `da = db`, `db` when
`da = 1`, and `da` when `db = 1`. -/
theorem broadcast_result_extents (A B C : List Nat) (h : broadcast A B = .ok C) :
    C.length = max A.length B.length ∧
    ∀ i, (extT A i = extT B i → extT C i = extT A i) ∧
      (extT A i = 1 → extT C i = extT B i) ∧
      (extT B i = 1 → extT C i = extT A i) := by
  obtain ⟨hlen, hext⟩ := broadcast_ok_extT h
  refine ⟨hlen, fun i => ⟨?_, ?_, ?_⟩⟩
  · intro hab; rw [hext i, hab, cv_self]
  · intro ha; rw [hext i, ha, cv_one_left]
  · intro hb; rw [hext i, hb, cv_one_right]

theorem broadcast_result_extents_witness :
    broadcast [5, 4] [1] = .ok [5, 4] ∧
    ([5, 4] : List Nat).length = max ([5, 4] : List Nat).length ([1] : List Nat).length :=
  ⟨rfl, (broadcast_result_extents [5, 4] [1] [5, 4] rfl).1⟩

/-- C2: `broadcast` is total — it returns either a result shape or an
`IncompatibleShapesError`; the error occurs iff at some trailing-aligned
position both (virtually padded) extents differ and neither equals 1; and the
error carries both full input shapes and the first offending axis index found
scanning rightmost-to-leftmost (trailing position `j` is axis
`max lenA lenB - 1 - j`). -/
theorem broadcast_totality_and_error_spec (A B : List Nat) :
    ((∃ C, broadcast A B = .ok C) ∨ (∃ e, broadcast A B = .error e)) ∧
    ((∃ e, broadcast A B = .error e) ↔ ∃ j, bad (extT A j) (extT B j)) ∧
    (∀ e, broadcast A B = .error e →
      e.shapeA = A ∧ e.shapeB = B ∧
      ∃ j, bad (extT A j) (extT B j) ∧
        (∀ k, k < j → ¬ bad (extT A k) (extT B k)) ∧
        e.axis = max A.length B.length - 1 - j) := by
  refine ⟨?_, broadcast_error_exists_iff A B, ?_⟩
  · cases hb : broadcast A B with
    | ok C => exact .inl ⟨C, rfl⟩
    | error e => exact .inr ⟨e, rfl⟩
  · intro e he
    rw [broadcast_error_eq_iff] at he
    obtain ⟨j, hj, rfl⟩ := he
    obtain ⟨h1, h2, -⟩ := bcastRev_error_spec _ _ _ hj
    exact ⟨rfl, rfl, j, h1, h2, rfl⟩

theorem broadcast_totality_and_error_spec_witness :
    (⟨[3, 4], [2, 4], 0⟩ : IncompatibleShapesError).shapeA = [3, 4] ∧
    (⟨[3, 4], [2, 4], 0⟩ : IncompatibleShapesError).shapeB = [2, 4] :=
  ⟨((broadcast_totality_and_error_spec [3, 4] [2, 4]).2.2 ⟨[3, 4], [2, 4], 0⟩ rfl).1,
   ((broadcast_totality_and_error_spec [3, 4] [2, 4]).2.2 ⟨[3, 4], [2, 4], 0⟩ rfl).2.1⟩

/-- C3 counterexample: `broadcast [0] [1]` succeeds with result `[0]`, whose
extent at the trailing position is 0, strictly below the larger input extent
1 — so the result is not always at least the larger of the two padded input
extents. -/
theorem broadcast_lower_bound_counterexample :
    broadcast [0] [1] = .ok [0] ∧
    ¬ (max (extT [0] 0) (extT [1] 0) ≤ extT [0] 0) :=
  ⟨rfl, by decide⟩

/-- C3 (amended): for every successful broadcast, at each trailing-aligned
position the result extent is at least the larger of the two (virtually
padded) input extents, except where one input extent is 0 (then the result
extent is 0). -/
theorem broadcast_result_lower_bound (A B C : List Nat) (h : broadcast A B = .ok C) :
    ∀ i, max (extT A i) (extT B i) ≤ extT C i ∨
      (extT C i = 0 ∧ (extT A i = 0 ∨ extT B i = 0)) := by
  obtain ⟨-, hext⟩ := broadcast_ok_extT h
  intro i
  rw [hext i]
  exact cv_lower_bound (bcastRev_ok_not_bad _ _ _ ((broadcast_ok_iff A B C).mp h) i)

theorem broadcast_result_lower_bound_witness :
    max (extT [15, 3, 5] 0) (extT [3, 1] 0) ≤ extT [15, 3, 5] 0 ∨
      (extT [15, 3, 5] 0 = 0 ∧ (extT [15, 3, 5] 0 = 0 ∨ extT [3, 1] 0 = 0)) :=
  broadcast_result_lower_bound [15, 3, 5] [3, 1] [15, 3, 5] rfl 0

/-- C4: `broadcast` is commutative — the results agree whenever both orders
succeed, and one order fails exactly when the other does. -/
theorem broadcast_commutative (A B : List Nat) :
    (∀ C C', broadcast A B = .ok C → broadcast B A = .ok C' → C = C') ∧
    ((∃ e, broadcast A B = .error e) ↔ ∃ e, broadcast B A = .error e) := by
  constructor
  · intro C C' h h'
    rw [broadcast_ok_iff, bcastRev_comm] at h
    rw [broadcast_ok_iff, h] at h'
    exact List.reverse_injective (Except.ok.inj h')
  · rw [broadcast_error_exists_iff, broadcast_error_exists_iff]
    exact ⟨fun ⟨j, hj⟩ => ⟨j, (bad_comm _ _).mp hj⟩,
           fun ⟨j, hj⟩ => ⟨j, (bad_comm _ _).mpr hj⟩⟩

theorem broadcast_commutative_witness :
    broadcast [5, 4] [1] = .ok [5, 4] ∧ ([5, 4] : List Nat) = [5, 4] :=
  ⟨rfl, (broadcast_commutative [5, 4] [1]).1 [5, 4] [5, 4] rfl rfl⟩

/-- C5: at a trailing-aligned position holding extents 0 and 1, the pair is
compatible (any failure of `broadcast` comes from a different position) and a
successful broadcast yields extent 0 there; at a position holding extent 0
against an extent greater than 1, `broadcast` fails with an
`IncompatibleShapesError`. -/
theorem broadcast_zero_extent_rules (A B : List Nat) (i : Nat) :
    ((extT A i = 0 ∧ extT B i = 1) ∨ (extT A i = 1 ∧ extT B i = 0) →
      (∀ e, broadcast A B = .error e → ∃ j, j ≠ i ∧ bad (extT A j) (extT B j)) ∧
      (∀ C, broadcast A B = .ok C → extT C i = 0)) ∧
    ((extT A i = 0 ∧ 1 < extT B i) ∨ (1 < extT A i ∧ extT B i = 0) →
      ∃ e, broadcast A B = .error e) := by
  constructor
  · intro h01
    have hnotbad : ¬ bad (extT A i) (extT B i) := by
      rcases h01 with ⟨h0, h1⟩ | ⟨h1, h0⟩ <;> rw [h0, h1] <;> decide
    constructor
    · intro e he
      obtain ⟨j, hjbad⟩ := (broadcast_error_exists_iff A B).mp ⟨e, he⟩
      refine ⟨j, ?_, hjbad⟩
      rintro rfl
      exact hnotbad hjbad
    · intro C hC
      have hext := (broadcast_ok_extT hC).2 i
      rcases h01 with ⟨h0, h1⟩ | ⟨h1, h0⟩ <;> rw [hext, h0, h1] <;> decide
  · intro hz
    rw [broadcast_error_exists_iff]
    rcases hz with ⟨h0, h1⟩ | ⟨h0, h1⟩ <;> exact ⟨i, by unfold bad; omega⟩

theorem broadcast_zero_extent_rules_witness :
    extT [0] 0 = 0 ∧ broadcast [0] [1] = .ok [0] :=
  ⟨((broadcast_zero_extent_rules [0] [1] 0).1 (.inl ⟨rfl, rfl⟩)).2 [0] rfl, rfl⟩

/-- C6: the worked examples of the source — `(5,4)` with `(1,)` gives
`(5,4)`; `(15,3,5)` with `(3,5)` gives `(15,3,5)`; `(15,3,5)` with `(3,1)`
gives `(15,3,5)`; and `(3,4)` with `(2,4)` fails with an
`IncompatibleShapesError` carrying both shapes and axis 0. -/
theorem broadcast_worked_examples :
    broadcast [5, 4] [1] = .ok [5, 4] ∧
    broadcast [15, 3, 5] [3, 5] = .ok [15, 3, 5] ∧
    broadcast [15, 3, 5] [3, 1] = .ok [15, 3, 5] ∧
    broadcast [3, 4] [2, 4] = .error ⟨[3, 4], [2, 4], 0⟩ :=
  ⟨rfl, rfl, rfl, rfl⟩

/-- C7: the empty (scalar) shape is an identity for `broadcast` on both
sides: broadcasting any shape with a scalar succeeds and returns the shape
unchanged. -/
theorem broadcast_scalar_identity (A : List Nat) :
    broadcast A [] = .ok A ∧ broadcast [] A = .ok A := by
  constructor
  · rw [broadcast_ok_iff, List.reverse_nil, bcastRev_nil_right]
  · rw [broadcast_ok_iff, List.reverse_nil, bcastRev_nil_left]

/-- C8: broadcasting any shape with itself succeeds and returns that shape. -/
theorem broadcast_self (A : List Nat) : broadcast A A = .ok A := by
  rw [broadcast_ok_iff, bcastRev_self]

/-- C9: `broadcast` is associative on successful inputs — when both
bracketings are defined they agree. -/
theorem broadcast_associative (A B C AB BC R1 R2 : List Nat)
    (h1 : broadcast A B = .ok AB) (h2 : broadcast AB C = .ok R1)
    (h3 : broadcast B C = .ok BC) (h4 : broadcast A BC = .ok R2) :
    R1 = R2 := by
  obtain ⟨l1, e1⟩ := broadcast_ok_extT h1
  obtain ⟨l2, e2⟩ := broadcast_ok_extT h2
  obtain ⟨l3, e3⟩ := broadcast_ok_extT h3
  obtain ⟨l4, e4⟩ := broadcast_ok_extT h4
  have hlen : R1.length = R2.length := by
    rw [l2, l4, l1, l3, Nat.max_assoc]
  have hext : ∀ j, extT R1 j = extT R2 j := fun j => by
    rw [e2 j, e4 j, e1 j, e3 j, cv_assoc]
  exact List.reverse_injective (eq_of_getD _ _ (by simpa using hlen) hext)

theorem broadcast_associative_witness :
    broadcast [4, 1] [3] = .ok [4, 3] ∧ ([4, 3] : List Nat) = [4, 3] :=
  ⟨rfl, broadcast_associative [4, 1] [3] [1] [4, 3] [3] [4, 3] [4, 3] rfl rfl rfl rfl⟩

/-- C10: a 2-d shape `(4,3)` combined with a 1-d shape `(3,)` broadcasts to
`(4,3)`, as in the source's `a + b` example printing a 4x3 array. -/
theorem broadcast_row_vector_example : broadcast [4, 3] [3] = .ok [4, 3] := rfl

end PyStatsML
